import Mathlib

/-!
Verification of the VFS core (overlay backend, realpath, open protocol,
cross-mount rename, mutex adapter, handle stat) against its specification.

The development is a shallow embedding of the TypeScript sources:
* `src/backends/overlay.ts` (`UnmutexedOverlayFS`) — overlay state and operations;
* `src/vfs/promises.ts` — `realpath`, `_open`, `rename`, `FileHandle.stat`;
* `src/mixins/mutexed.ts` — the lock chain, modelled as an event-trace theory.

Helper modules that are not part of the sources here (`stats.ts`, `file.ts`,
`filesystem.ts`, `vfs/shared.ts`, `vfs/path.ts`, `vfs/watchers.ts`) are
modelled from the specification; each such definition is marked
`Modelled from the spec:` in its doc comment.
-/

/-- POSIX error codes used by the embedded operations (`error.ts`). -/
inductive Err where
  | ENOENT
  | EACCES
  | ENOTDIR
  | EEXIST
  | EINVAL
  | ENOTEMPTY
  | EBUSY
  | EDEADLK
  | ELOOP
  deriving DecidableEq, Repr

/-- File-type mask bits of `mode` (`vfs/constants.ts`). -/
def S_IFMT : Nat := 0o170000

/-- Directory type bit pattern. -/
def S_IFDIR : Nat := 0o040000

/-- Regular-file type bit pattern. -/
def S_IFREG : Nat := 0o100000

/-- Read-access request bit. -/
def R_OK : Nat := 4

/-- Write-access request bit. -/
def W_OK : Nat := 2

/-- Caller credentials: effective uid and gid (`cred.ts`). -/
structure Cred where
  uid : Nat
  gid : Nat
  deriving DecidableEq, Repr

/-- File status record; `mode` encodes both the file-type bits and the
permission bits (spec §3, `stats.ts`). Only the fields the claims need are
kept. -/
structure Stats where
  mode : Nat
  uid : Nat
  gid : Nat
  size : Nat
  deriving DecidableEq, Repr

/-- Whether the status describes a directory. -/
def Stats.isDirectory (s : Stats) : Bool := s.mode &&& S_IFMT == S_IFDIR

/-- Modelled from the spec: `hasAccess(mode, ctx)` returns true iff the
caller's effective uid/gid can satisfy the requested rwx bits per classic
POSIX rules, with root bypassing the check (spec §3; `stats.ts` is not under
the sources). -/
def hasAccess (s : Stats) (c : Cred) (req : Nat) : Bool :=
  if c.uid == 0 then true
  else
    let perms := if c.uid == s.uid then s.mode >>> 6
      else if c.gid == s.gid then s.mode >>> 3
      else s.mode
    perms &&& req == req

/-- Equality of embedded operation results is decidable, so concrete runs
can be checked by evaluation. -/
instance {ε α : Type} [DecidableEq ε] [DecidableEq α] : DecidableEq (Except ε α) := fun x y =>
  match x, y with
  | .ok a, .ok b =>
    if h : a = b then isTrue (congrArg Except.ok h)
    else isFalse (fun hh => h (Except.ok.inj hh))
  | .error a, .error b =>
    if h : a = b then isTrue (congrArg Except.error h)
    else isFalse (fun hh => h (Except.error.inj hh))
  | .ok _, .error _ => isFalse (fun hh => Except.noConfusion hh)
  | .error _, .ok _ => isFalse (fun hh => Except.noConfusion hh)

/-- One stored file: mode bits, owner, and raw contents. -/
structure Entry where
  mode : Nat
  uid : Nat
  gid : Nat
  data : String
  deriving DecidableEq, Repr

/-- A flat in-memory backend store: an association list from paths to
entries. This instantiates the backend interface of spec §6 for the
constituent file systems the claims quantify over. -/
abbrev FSMap (κ : Type) := List (κ × Entry)

/-- Look up the entry stored at a path. -/
def lookupE {κ : Type} [DecidableEq κ] (fs : FSMap κ) (p : κ) : Option Entry :=
  match fs with
  | [] => none
  | (q, e) :: rest => if q = p then some e else lookupE rest p

/-- Remove a path's entry (keeps every other binding). -/
def removeE {κ : Type} [DecidableEq κ] (fs : FSMap κ) (p : κ) : FSMap κ :=
  fs.filter (fun kv => decide (kv.1 ≠ p))

/-- Bind a path to an entry, replacing any previous binding. -/
def setE {κ : Type} [DecidableEq κ] (fs : FSMap κ) (p : κ) (e : Entry) : FSMap κ :=
  (p, e) :: removeE fs p

/-- Backend `exists`: whether the path has an entry. -/
def existsC {κ : Type} [DecidableEq κ] (fs : FSMap κ) (p : κ) : Bool :=
  (lookupE fs p).isSome

/-- Backend `stat`: the stats of the entry, or `ENOENT`. -/
def statC {κ : Type} [DecidableEq κ] (fs : FSMap κ) (p : κ) : Except Err Stats :=
  match lookupE fs p with
  | some e => .ok ⟨e.mode, e.uid, e.gid, e.data.length⟩
  | none => .error .ENOENT

/-- Backend `create_file`: creates a fresh regular file owned by the caller
(spec §6 default: regular file `S_IFREG | mode`). -/
def createC {κ : Type} [DecidableEq κ] (fs : FSMap κ) (p : κ) (mode : Nat) (c : Cred) : FSMap κ :=
  setE fs p ⟨S_IFREG ||| mode, c.uid, c.gid, ""⟩

/-- Open with flag `w` and write the full contents: overwrites the data of an
existing entry, or creates the file with default mode. Used by the overlay's
deletion-log writer (spec §6: the log file is overwritten in full). -/
def writeC {κ : Type} [DecidableEq κ] (fs : FSMap κ) (p : κ) (d : String) : FSMap κ :=
  match lookupE fs p with
  | some e => setE fs p { e with data := d }
  | none => setE fs p ⟨S_IFREG ||| 0o644, 0, 0, d⟩

/-- Truncate an existing entry's data to empty (a `truncate(0)` after open). -/
def truncateC {κ : Type} [DecidableEq κ] (fs : FSMap κ) (p : κ) : FSMap κ :=
  match lookupE fs p with
  | some e => setE fs p { e with data := "" }
  | none => fs

/-- Backend `rename`: move the entry at `oldP` to `newP`; `ENOENT` when
`oldP` has no entry. -/
def renameC {κ : Type} [DecidableEq κ] (fs : FSMap κ) (oldP newP : κ) : Except Err (FSMap κ) :=
  match lookupE fs oldP with
  | some e => .ok (setE (removeE fs oldP) newP e)
  | none => .error .ENOENT

/-- The contents stored at a path, if any. -/
def lookupData {κ : Type} [DecidableEq κ] (fs : FSMap κ) (p : κ) : Option String :=
  (lookupE fs p).map (·.data)

/-! ### Overlay backend (`src/backends/overlay.ts`, `UnmutexedOverlayFS`) -/

/-- Path of the persisted deletion log on the writable file system. -/
def deletionLogPath : String := "/.deleted"

/-- The state of an `UnmutexedOverlayFS`: the writable (upper) and readable
(lower) constituent stores, the in-memory deleted set and the in-memory copy
of the deletion log text. -/
structure OverlayState where
  writable : FSMap String
  readable : FSMap String
  deletedFiles : List String
  deleteLog : String
  deriving DecidableEq, Repr

/-- `UnmutexedOverlayFS.stat`: `ENOENT` for deleted paths; otherwise the
writable store's stat if it succeeds, else the readable store's stat with
`0o222` OR-ed into `mode` (overlay.ts lines 135-147). -/
def overlayStat (o : OverlayState) (p : String) : Except Err Stats :=
  if o.deletedFiles.contains p then .error .ENOENT
  else
    match statC o.writable p with
    | .ok s => .ok s
    | .error _ =>
      match statC o.readable p with
      | .ok s => .ok { s with mode := s.mode ||| 0o222 }
      | .error e => .error e

/-- Modelled from the spec: the base-class `exists` tries `stat` and maps
`ENOENT` to `false` (`filesystem.ts` is not under the sources; spec §3:
a path is visible iff it exists on upper, or exists on lower and is not
deleted). -/
def overlayExists (o : OverlayState) (p : String) : Bool :=
  match overlayStat o p with
  | .ok _ => true
  | .error _ => false

/-- `UnmutexedOverlayFS.updateLog`: append to the in-memory log text, then
overwrite the log file on the writable store with the whole text
(overlay.ts lines 334-339). -/
def updateLog (o : OverlayState) (addition : String) : OverlayState :=
  let log := o.deleteLog ++ addition
  { o with deleteLog := log, writable := writeC o.writable deletionLogPath log }

/-- `UnmutexedOverlayFS.deletePath`: add the path to the in-memory deleted
set and append `d{path}\n` to the log (overlay.ts lines 329-332). -/
def deletePath (o : OverlayState) (p : String) : OverlayState :=
  updateLog { o with deletedFiles := p :: o.deletedFiles } ("d" ++ p ++ "\n")

/-- `UnmutexedOverlayFS.unlink` (overlay.ts lines 204-217): require
visibility; remove from the writable store when present there; if the path
is still visible afterwards, record the deletion. -/
def overlayUnlink (o : OverlayState) (p : String) : Except Err OverlayState :=
  if !(overlayExists o p) then .error .ENOENT
  else
    let o1 := if existsC o.writable p then { o with writable := removeE o.writable p } else o
    if overlayExists o1 p then .ok (deletePath o1 p) else .ok o1

/-- `UnmutexedOverlayFS.createFile` (overlay.ts lines 186-189): create the
file on the writable store, then open it. The subsequent `openFile` call
does not change the overlay state, so only the creation is kept. -/
def overlayCreateFile (o : OverlayState) (p : String) (mode : Nat) (c : Cred) : OverlayState :=
  { o with writable := createC o.writable p mode c }

/-- `UnmutexedOverlayFS.rename` (overlay.ts lines 121-126): `ENOENT` when
the old path is in the deleted set; otherwise delegate directly to the
writable store's rename. -/
def overlayRename (o : OverlayState) (oldP newP : String) : Except Err OverlayState :=
  if o.deletedFiles.contains oldP then .error .ENOENT
  else
    match renameC o.writable oldP newP with
    | .ok fs => .ok { o with writable := fs }
    | .error e => .error e

/-! ### `realpath` (`src/vfs/promises.ts` lines 937-965)

Paths are modelled as lists of segments of a normalized absolute path
(spec §3: absolute, collapsed); `[]` is the root `/`. `dirname` is
`dropLast` and `basename` the last segment (`vfs/path.ts` is not under the
sources; modelled from the spec). Symlink targets are stored already
resolved against the link's directory, so `resolve(realDir, target)` is the
target itself. The path cache is modelled as absent (the spec does not
describe one). The source function has no recursion bound, so the embedding
is fuel-indexed: `none` means the recursion exceeded the given fuel at every
depth, i.e. the source diverges. -/

/-- A node as seen by `realpath`: the only distinction the function makes is
symlink versus non-symlink. -/
inductive RNode where
  | file
  | dir
  | symlink (target : List String)
  deriving DecidableEq, Repr

/-- The backend `stat` function `realpath` consults (dispatch over a single
root mount, so the backend-local path equals the input path). -/
abbrev RStat := (List String) → Except Err RNode

/-- `realpath` (promises.ts lines 937-965): split into `(dir, base)`,
recursively resolve `dir`, stat the joined path; a symlink recurses on its
target; `ENOENT` from the try-block returns the input path; other errors
propagate. -/
def realpathF (st : RStat) : Nat → List String → Option (Except Err (List String))
  | 0, _ => none
  | fuel + 1, p =>
    if p = [] then
      match st [] with
      | .error e => if e = .ENOENT then some (.ok []) else some (.error e)
      | .ok (.symlink target) =>
        match realpathF st fuel target with
        | none => none
        | some (.ok q) => some (.ok q)
        | some (.error e) => if e = .ENOENT then some (.ok p) else some (.error e)
      | .ok _ => some (.ok [])
    else
      match (if p.dropLast = [] then some (Except.ok ([] : List String))
             else realpathF st fuel p.dropLast) with
      | none => none
      | some (.error e) => some (.error e)
      | some (.ok realDir) =>
        match st (realDir ++ [p.getLastD ""]) with
        | .error e => if e = .ENOENT then some (.ok p) else some (.error e)
        | .ok (.symlink target) =>
          match realpathF st fuel target with
          | none => none
          | some (.ok q) => some (.ok q)
          | some (.error e) => if e = .ENOENT then some (.ok p) else some (.error e)
        | .ok _ => some (.ok (realDir ++ [p.getLastD ""]))

/-- A backend with a two-link symlink cycle: `/a -> /b -> /a`. -/
def cycleStat : RStat := fun p =>
  if p = [] then .ok .dir
  else if p = ["a"] then .ok (.symlink ["b"])
  else if p = ["b"] then .ok (.symlink ["a"])
  else .error .ENOENT

/-- The evaluation of `realpath` on this input exceeds every recursion
depth: the source, which has no depth bound, never returns. -/
def realpathDiverges (st : RStat) (p : List String) : Prop :=
  ∀ fuel, realpathF st fuel p = none

/-! ### Open protocol (`src/vfs/promises.ts`, `_open`, lines 525-574)

The flag predicates live in `file.ts`, which is not under the sources; they
are modelled from the flag table of spec §4.3.1. The embedding starts after
symlink resolution and mount dispatch, over a single backend store, so the
backend-local resolved path equals the input path; `dirname` is
`dropLast`. -/

/-- The open-flag strings of spec §6. -/
inductive OpenFlag where
  | r
  | rs
  | rplus
  | w
  | wx
  | wplus
  | wxplus
  | a
  | ax
  | aplus
  | axplus
  deriving DecidableEq, Repr

/-- Modelled from the spec: readable flags per the table of §4.3.1. -/
def isReadable : OpenFlag → Bool
  | .r | .rs | .rplus | .wplus | .aplus => true
  | _ => false

/-- Modelled from the spec: writable flags per the table of §4.3.1. -/
def isWriteable : OpenFlag → Bool
  | .r | .rs => false
  | _ => true

/-- Modelled from the spec: appendable flags per the table of §4.3.1. -/
def isAppendable : OpenFlag → Bool
  | .a | .ax | .aplus | .axplus => true
  | _ => false

/-- Modelled from the spec: truncating flags per the table of §4.3.1. -/
def isTruncating : OpenFlag → Bool
  | .w | .wx | .wplus | .wxplus => true
  | _ => false

/-- Modelled from the spec: exclusive flags per the table of §4.3.1. -/
def isExclusive : OpenFlag → Bool
  | .wx | .wxplus | .ax | .axplus => true
  | _ => false

/-- Modelled from the spec: `flag_to_mode(F)` yields `R_OK | W_OK` when
readable and writable, `R_OK` when read-only, `W_OK` when write-only
(spec §4.3.1). -/
def flagToMode (f : OpenFlag) : Nat :=
  if isReadable f && isWriteable f then R_OK ||| W_OK
  else if isReadable f then R_OK
  else W_OK

/-- Whether `_open` returned the create branch or the plain-open branch. -/
inductive OpenResult where
  | created
  | opened
  deriving DecidableEq, Repr

/-- `_open` (promises.ts lines 525-574) after mount dispatch: the absent
branch rejects non-creating flags with `ENOENT`, stats the parent, checks
write access (`chk` is `config.checkAccess`) and directory-ness, then calls
the backend's `create_file`; the present branch checks access against
`flag_to_mode`, rejects exclusive opens with `EEXIST`, opens, and truncates
when the flag truncates. -/
def vopen (chk : Bool) (fs : FSMap (List String)) (c : Cred) (p : List String)
    (flag : OpenFlag) (mode : Nat) : Except Err (FSMap (List String) × OpenResult) :=
  match statC fs p with
  | .error _ =>
    if (isWriteable flag = false ∧ isAppendable flag = false) ∨ flag = .rplus then
      .error .ENOENT
    else
      match statC fs p.dropLast with
      | .error e => .error e
      | .ok parentStats =>
        if chk && !(hasAccess parentStats c W_OK) then .error .EACCES
        else if !(parentStats.isDirectory) then .error .ENOTDIR
        else .ok (createC fs p mode c, .created)
  | .ok stats =>
    if chk && !(hasAccess stats c (flagToMode flag)) then .error .EACCES
    else if isExclusive flag then .error .EEXIST
    else if isTruncating flag then .ok (truncateC fs p, .opened)
    else .ok (fs, .opened)

/-! ### Cross-mount rename (`src/vfs/promises.ts`, `rename`, lines 408-429)

The mount table and its resolution are modelled from spec §4.2
(`vfs/shared.ts` is not under the sources); the event bus records
`(kind, path)` pairs exactly as `emitChange` is called (spec §4.8,
`vfs/watchers.ts`). Access checking is modelled disabled, and there are no
symlinks, so the paths are used as given. A file handle created for a
backend-local path carries that local path (`file.path`), and
`FileHandle.writeFile` emits its change event on `file.path`
(promises.ts line 315). -/

/-- Directory-tree events: `rename` or `change` with the path the source
passes to `emitChange`. -/
inductive EvKind where
  | rename
  | change
  deriving DecidableEq, Repr

/-- A segment path at the VFS level. -/
abbrev SPath := List String

/-- The process state: the mount table (kept ordered by descending
mount-point length, spec §4.2) and the list of emitted events. -/
structure VfsState where
  mounts : List (SPath × FSMap SPath)
  events : List (EvKind × SPath)
  deriving DecidableEq, Repr

/-- Modelled from the spec: `resolve_mount(p)` scans mount points in order
and returns the first whose path is `p` or a proper prefix of `p`, together
with the backend and the backend-local path (spec §4.2). -/
def resolveMountM (ms : List (SPath × FSMap SPath)) (p : SPath) :
    Option (SPath × FSMap SPath × SPath) :=
  match ms with
  | [] => none
  | (mp, fs) :: rest =>
    if mp.isPrefixOf p then some (mp, fs, p.drop mp.length) else resolveMountM rest p

/-- Replace the backend stored for a mount point. -/
def setMount (ms : List (SPath × FSMap SPath)) (mp : SPath) (fs : FSMap SPath) :
    List (SPath × FSMap SPath) :=
  ms.map (fun kv => if kv.1 = mp then (mp, fs) else kv)

/-- `readFile` at the VFS level: dispatch to the mount and return the stored
contents, `ENOENT` when absent (promises.ts `readFile` via `open('r')`). -/
def vfsReadFile (st : VfsState) (p : SPath) : Except Err String :=
  match resolveMountM st.mounts p with
  | none => .error .EINVAL
  | some (_, fs, lp) =>
    match lookupE fs lp with
    | some e => .ok e.data
    | none => .error .ENOENT

/-- `writeFile` at the VFS level: open with a creating flag, write the full
contents, and emit a `change` event on the handle's backend-local path
(promises.ts `writeFile` and `FileHandle.writeFile`, line 315). -/
def vfsWriteFile (st : VfsState) (p : SPath) (d : String) : Except Err VfsState :=
  match resolveMountM st.mounts p with
  | none => .error .EINVAL
  | some (mp, fs, lp) =>
    .ok { mounts := setMount st.mounts mp (writeC fs lp d),
          events := st.events ++ [(.change, lp)] }

/-- `unlink` at the VFS level: dispatch, delete on the backend, emit a
`rename` event on the user-facing path (promises.ts lines 493-505, access
checking disabled). -/
def vfsUnlink (st : VfsState) (p : SPath) : Except Err VfsState :=
  match resolveMountM st.mounts p with
  | none => .error .EINVAL
  | some (mp, fs, lp) =>
    if existsC fs lp then
      .ok { mounts := setMount st.mounts mp (removeE fs lp),
            events := st.events ++ [(.rename, p)] }
    else .error .ENOENT

/-- `exists` at the VFS level (no symlinks, so no realpath step changes the
path). -/
def vfsExists (st : VfsState) (p : SPath) : Bool :=
  match resolveMountM st.mounts p with
  | none => false
  | some (_, fs, lp) => existsC fs lp

/-- `rename` (promises.ts lines 408-429): same mount point delegates to the
backend rename and emits `rename` on old and `change` on new; different
mount points copy the bytes with `writeFile(new, readFile(old))`, unlink
old, and emit `rename` on old. -/
def vfsRename (st : VfsState) (oldP newP : SPath) : Except Err VfsState :=
  match resolveMountM st.mounts oldP, resolveMountM st.mounts newP with
  | some (mpS, fsS, lpS), some (mpD, _, lpD) =>
    if mpS = mpD then
      match renameC fsS lpS lpD with
      | .ok fs2 =>
        .ok { mounts := setMount st.mounts mpS fs2,
              events := st.events ++ [(.rename, oldP), (.change, newP)] }
      | .error e => .error e
    else
      match vfsReadFile st oldP with
      | .error e => .error e
      | .ok v =>
        match vfsWriteFile st newP v with
        | .error e => .error e
        | .ok st1 =>
          match vfsUnlink st1 oldP with
          | .error e => .error e
          | .ok st2 => .ok { st2 with events := st2.events ++ [(.rename, oldP)] }
  | _, _ => .error .EINVAL

/-! ### Mutex adapter (`src/mixins/mutexed.ts`)

`lock()` numbers the locks by invocation order: `addLock` chains each new
`MutexLock` to the current one, so lock `k`'s `previous` is lock `k - 1`.
`MutexLock.done()` awaits the previous lock's `done()` and then its own
resolved promise, and `lock()` returns (the caller acquires) only after
`previous.done()`. An execution is a trace of acquire/unlock events; the
validity predicate states exactly the waiting the code performs, plus the
usage discipline of the wrapper methods (`using _ = await this.lock(...)`:
a lock is unlocked only after it was acquired). -/

/-- Events observable on one mutexed wrapper: lock `k` (in invocation
order) is acquired (its `lock()` promise resolves), or unlocked. -/
inductive MEvent where
  | acquire (k : Nat)
  | unlock (k : Nat)
  deriving DecidableEq, Repr

/-- `MutexLock.done()` for lock `j` has resolved before time `t`: every lock
up the `previous` chain, and `j` itself, was unlocked before `t`. -/
def doneBefore (tr : List MEvent) : Nat → Nat → Bool
  | 0, t => (tr.take t).contains (MEvent.unlock 0)
  | j + 1, t => doneBefore tr j t && (tr.take t).contains (MEvent.unlock (j + 1))

/-- The constraint the code puts on the event at time `t`: an acquire of
lock `k` happens only once `previous.done()` (lock `k - 1`'s chain) has
resolved, and an unlock only after the matching acquire. -/
def stepOK (tr : List MEvent) (t : Nat) : Bool :=
  match tr.get? t with
  | some (MEvent.acquire k) => k == 0 || doneBefore tr (k - 1) t
  | some (MEvent.unlock k) =>
    (List.range t).any (fun s => tr.get? s == some (MEvent.acquire k))
  | none => true

/-- A trace the mutexed wrapper can produce: each event happens at most
once and every event satisfies its waiting constraint. -/
def ValidTrace (tr : List MEvent) : Prop :=
  tr.Nodup ∧ ∀ t, t < tr.length → stepOK tr t = true

/-! ### Handle-level stat (`src/vfs/promises.ts`, `FileHandle.stat`,
lines 248-256) -/

/-- `FileHandle.stat`: stat the underlying file, then fail with `EACCES`
when access checking is enabled and the caller lacks read access. -/
def fileHandleStat (chk : Bool) (c : Cred) (s : Stats) : Except Err Stats :=
  if chk && !(hasAccess s c R_OK) then .error .EACCES else .ok s

/-! ## Store lemmas -/

theorem lookupE_removeE {κ : Type} [DecidableEq κ] (fs : FSMap κ) (p q : κ) :
    lookupE (removeE fs p) q = if q = p then none else lookupE fs q := by
  induction fs with
  | nil => simp [lookupE, removeE]
  | cons kv rest ih =>
    obtain ⟨k, e⟩ := kv
    by_cases hkp : k = p <;> by_cases hqp : q = p
    · simp_all [lookupE, removeE, List.filter]
    · have hpq : ¬p = q := fun h => hqp h.symm
      simp_all [lookupE, removeE, List.filter]
    · simp_all [lookupE, removeE, List.filter]
    · simp_all [lookupE, removeE, List.filter]

theorem lookupE_setE_self {κ : Type} [DecidableEq κ] (fs : FSMap κ) (p : κ) (e : Entry) :
    lookupE (setE fs p e) p = some e := by
  simp [setE, lookupE]

theorem lookupE_setE_ne {κ : Type} [DecidableEq κ] (fs : FSMap κ) (p q : κ) (e : Entry)
    (h : q ≠ p) : lookupE (setE fs p e) q = lookupE fs q := by
  simp [setE, lookupE, Ne.symm h, lookupE_removeE, h]

theorem lookupData_writeC_self {κ : Type} [DecidableEq κ] (fs : FSMap κ) (p : κ) (d : String) :
    lookupData (writeC fs p d) p = some d := by
  unfold writeC
  cases h : lookupE fs p <;> simp [lookupData, lookupE_setE_self]

theorem existsC_eq_true_iff {κ : Type} [DecidableEq κ] (fs : FSMap κ) (p : κ) :
    existsC fs p = true ↔ ∃ e, lookupE fs p = some e := by
  unfold existsC
  cases h : lookupE fs p <;> simp

theorem existsC_eq_false_iff {κ : Type} [DecidableEq κ] (fs : FSMap κ) (p : κ) :
    existsC fs p = false ↔ lookupE fs p = none := by
  unfold existsC
  cases h : lookupE fs p <;> simp

/-! ## Bitwise mode lemmas -/

theorem or_and_mask_of_disjoint (m b c : Nat) (h : b &&& c = 0) :
    (m ||| b) &&& c = m &&& c := by
  apply Nat.eq_of_testBit_eq
  intro i
  have hb : (b &&& c).testBit i = false := by rw [h]; exact Nat.zero_testBit i
  rw [Nat.testBit_and] at hb
  simp only [Nat.testBit_and, Nat.testBit_or]
  cases hm : m.testBit i <;> cases hbb : b.testBit i <;> cases hc : c.testBit i <;>
    simp_all

theorem or_and_mask_self (m b : Nat) : (m ||| b) &&& b = b &&& b := by
  apply Nat.eq_of_testBit_eq
  intro i
  simp only [Nat.testBit_and, Nat.testBit_or]
  cases hm : m.testBit i <;> cases hbb : b.testBit i <;> simp_all

/-! ## Claim C1 -/

/-- Claim C1: for a path that exists only on the lower (readable) file
system of an overlay, after `unlink(P)` succeeds, `exists(P)` is false, `P`
is in the in-memory deleted set, and the persisted deletion log on the upper
file system contains the line `d` + `P` followed by a newline (it is the
final line of the log file). -/
theorem C1_unlink_lower_only (o : OverlayState) (p : String)
    (hlower : existsC o.readable p = true)
    (hupper : existsC o.writable p = false)
    (hdel : o.deletedFiles.contains p = false) :
    ∃ o2, overlayUnlink o p = .ok o2 ∧
      overlayExists o2 p = false ∧
      o2.deletedFiles.contains p = true ∧
      lookupData o2.writable deletionLogPath = some (o.deleteLog ++ ("d" ++ p ++ "\n")) := by
  obtain ⟨e, hre⟩ := (existsC_eq_true_iff o.readable p).mp hlower
  have hwe : lookupE o.writable p = none := (existsC_eq_false_iff o.writable p).mp hupper
  have hmem : p ∉ o.deletedFiles := by simpa using hdel
  have hstat : overlayStat o p =
      .ok { mode := e.mode ||| 0o222, uid := e.uid, gid := e.gid, size := e.data.length } := by
    simp [overlayStat, hmem, statC, hwe, hre]
  have hex : overlayExists o p = true := by simp [overlayExists, hstat]
  refine ⟨deletePath o p, ?_, ?_, ?_, ?_⟩
  · simp [overlayUnlink, hex, hupper]
  · simp [overlayExists, overlayStat, deletePath, updateLog]
  · simp [deletePath, updateLog]
  · simp [deletePath, updateLog, lookupData_writeC_self]

/-- Concrete overlay for the C1 witness: `/f` lives only on the lower store. -/
def c1State : OverlayState :=
  { writable := []
    readable := [("/f", ⟨0o100444, 0, 0, "hello"⟩)]
    deletedFiles := []
    deleteLog := "" }

/-- Witness for C1 at a concrete lower-only path. -/
theorem C1_witness :
    existsC c1State.readable "/f" = true ∧ existsC c1State.writable "/f" = false ∧
      c1State.deletedFiles.contains "/f" = false ∧
      (∃ o2, overlayUnlink c1State "/f" = .ok o2 ∧
        overlayExists o2 "/f" = false ∧
        o2.deletedFiles.contains "/f" = true ∧
        lookupData o2.writable deletionLogPath = some (c1State.deleteLog ++ ("d" ++ "/f" ++ "\n"))) :=
  ⟨by decide, by decide, by decide,
    C1_unlink_lower_only c1State "/f" (by decide) (by decide) (by decide)⟩

/-! ## Claim C2 -/

/-- Claim C2: overlay `stat(P)` fails with `ENOENT` when `P` is in the
deleted set; otherwise it returns the upper store's stat when that succeeds;
otherwise it returns the lower store's stat with the permission bits `0o222`
OR-ed into `mode` (so the returned view is writable) while the file-type
bits are preserved; a failure of the lower stat propagates. -/
theorem C2_overlay_stat (o : OverlayState) (p : String) :
    (o.deletedFiles.contains p = true → overlayStat o p = .error .ENOENT) ∧
    (∀ s, o.deletedFiles.contains p = false → statC o.writable p = .ok s →
      overlayStat o p = .ok s) ∧
    (∀ s e, o.deletedFiles.contains p = false → statC o.writable p = .error e →
      statC o.readable p = .ok s →
        overlayStat o p = .ok { s with mode := s.mode ||| 0o222 } ∧
        (s.mode ||| 0o222) &&& S_IFMT = s.mode &&& S_IFMT ∧
        (s.mode ||| 0o222) &&& 0o222 = 0o222) ∧
    (∀ e e2, o.deletedFiles.contains p = false → statC o.writable p = .error e →
      statC o.readable p = .error e2 → overlayStat o p = .error e2) := by
  refine ⟨?_, ?_, ?_, ?_⟩
  · intro hdel
    have hmem : p ∈ o.deletedFiles := by simpa using hdel
    simp [overlayStat, hmem]
  · intro s hdel hup
    have hmem : p ∉ o.deletedFiles := by simpa using hdel
    simp [overlayStat, hmem, hup]
  · intro s e hdel hup hlo
    have hmem : p ∉ o.deletedFiles := by simpa using hdel
    refine ⟨by simp [overlayStat, hmem, hup, hlo], ?_, ?_⟩
    · exact or_and_mask_of_disjoint s.mode 0o222 S_IFMT (by decide)
    · have h := or_and_mask_self s.mode 0o222
      simpa using h
  · intro e e2 hdel hup hlo
    have hmem : p ∉ o.deletedFiles := by simpa using hdel
    simp [overlayStat, hmem, hup, hlo]

/-- Concrete overlay for the C2 witness: a read-only file on the lower
store only. -/
def c2State : OverlayState :=
  { writable := []
    readable := [("/f", ⟨0o100444, 0, 0, "hello"⟩)]
    deletedFiles := []
    deleteLog := "" }

/-- Witness for C2: the lower-only branch at a concrete state. -/
theorem C2_witness :
    overlayStat c2State "/f" = .ok { mode := 0o100444 ||| 0o222, uid := 0, gid := 0, size := 5 } ∧
      (0o100444 ||| 0o222) &&& S_IFMT = 0o100444 &&& S_IFMT ∧
      (0o100444 ||| 0o222) &&& 0o222 = 0o222 :=
  (C2_overlay_stat c2State "/f").2.2.1 ⟨0o100444, 0, 0, 5⟩ .ENOENT
    (by decide) (by decide) (by decide)

/-! ## Claim C7 -/

/-- Concrete overlay for C7: `/f` was deleted (it is in the deleted set and
the log), and lives on the lower store. -/
def c7State : OverlayState :=
  { writable := []
    readable := [("/f", ⟨0o100644, 0, 0, "old"⟩)]
    deletedFiles := ["/f"]
    deleteLog := "d/f\n" }

/-- Counterexample to claim C7 as stated: `createFile` does not remove the
path from the deleted set — after creating `/f` over a deleted path, `/f`
exists on the writable store but is still in the deleted set (and overlay
`stat`/`exists` therefore still report it missing). -/
theorem C7_counterexample :
    existsC (overlayCreateFile c7State "/f" 0o644 ⟨1, 1⟩).writable "/f" = true ∧
      (overlayCreateFile c7State "/f" 0o644 ⟨1, 1⟩).deletedFiles.contains "/f" = true ∧
      overlayExists (overlayCreateFile c7State "/f" 0o644 ⟨1, 1⟩) "/f" = false := by
  decide

/-- Claim C7, amended: overlay `createFile(P, F, m)` creates `P` on the
upper (writable) file system but leaves the deleted set unchanged — the
source never removes `P` from `deletedFiles`, so a path deleted earlier
stays deleted even after a successful create. -/
theorem C7_create_keeps_deleted (o : OverlayState) (p : String) (m : Nat) (c : Cred) :
    existsC (overlayCreateFile o p m c).writable p = true ∧
      (overlayCreateFile o p m c).deletedFiles = o.deletedFiles := by
  constructor
  · simp [overlayCreateFile, createC, existsC, lookupE_setE_self]
  · rfl

/-! ## Claim C8 -/

/-- Concrete overlay for C8: `/f` is visible through the lower store only
and is not deleted. -/
def c8State : OverlayState :=
  { writable := []
    readable := [("/f", ⟨0o100644, 0, 0, "x"⟩)]
    deletedFiles := []
    deleteLog := "" }

/-- Counterexample to claim C8 as stated: overlay `rename` performs no
copy-up — renaming a visible, lower-only path fails with the upper store's
`ENOENT` instead of succeeding. -/
theorem C8_counterexample :
    overlayExists c8State "/f" = true ∧
      overlayRename c8State "/f" "/g" = .error .ENOENT := by
  decide

/-- Claim C8, amended: overlay `rename(old, new)` fails with `ENOENT` when
`old` is in the deleted set, and otherwise delegates directly to the upper
store's rename with no copy-up; in particular a path present only on the
lower store (even though visible) makes rename fail with the upper store's
`ENOENT`. -/
theorem C8_rename_delegates (o : OverlayState) (oldP newP : String) :
    (o.deletedFiles.contains oldP = true → overlayRename o oldP newP = .error .ENOENT) ∧
    (o.deletedFiles.contains oldP = false →
      overlayRename o oldP newP =
        match renameC o.writable oldP newP with
        | .ok fs => .ok { o with writable := fs }
        | .error e => .error e) ∧
    (o.deletedFiles.contains oldP = false → existsC o.writable oldP = false →
      overlayRename o oldP newP = .error .ENOENT) := by
  refine ⟨?_, ?_, ?_⟩
  · intro hdel
    have hmem : oldP ∈ o.deletedFiles := by simpa using hdel
    simp [overlayRename, hmem]
  · intro hdel
    have hmem : oldP ∉ o.deletedFiles := by simpa using hdel
    simp [overlayRename, hmem]
  · intro hdel hup
    have hmem : oldP ∉ o.deletedFiles := by simpa using hdel
    have hwe : lookupE o.writable oldP = none := (existsC_eq_false_iff o.writable oldP).mp hup
    simp [overlayRename, hmem, renameC, hwe]

/-- Witness for C8 (amended): the lower-only branch at a concrete state. -/
theorem C8_witness : overlayRename c8State "/f" "/g" = .error .ENOENT :=
  (C8_rename_delegates c8State "/f" "/g").2.2 (by decide) (by decide)

/-! ## Claim C3 -/

/-- Claim C3: for a normalized path `dir ++ [base]` whose directory part
resolves (to `realDir`) and whose final node's backend stat fails with
`ENOENT`, `realpath` returns the input path itself instead of failing; any
other backend error on the final node propagates. -/
theorem C3_realpath_missing (st : RStat) (fuel : Nat) (dir : List String) (base : String)
    (realDir : List String)
    (hdir : (if dir = [] then some (Except.ok ([] : List String))
             else realpathF st fuel dir) = some (.ok realDir)) :
    (st (realDir ++ [base]) = .error .ENOENT →
      realpathF st (fuel + 1) (dir ++ [base]) = some (.ok (dir ++ [base]))) ∧
    (∀ e, e ≠ .ENOENT → st (realDir ++ [base]) = .error e →
      realpathF st (fuel + 1) (dir ++ [base]) = some (.error e)) := by
  have hne : dir ++ [base] ≠ [] := by simp
  constructor
  · intro hstat
    simp [realpathF, hne, hdir, hstat]
  · intro e he hstat
    simp [realpathF, hne, hdir, hstat, he]

/-- Backend for the C3 witness: the root is a directory, `/e` raises `EACCES`,
everything else is missing. -/
def c3Stat : RStat := fun p =>
  if p = [] then .ok .dir
  else if p = ["e"] then .error .EACCES
  else .error .ENOENT

/-- Witness for C3 at concrete inputs: a missing `/x` resolves to itself,
and the `EACCES` on `/e` propagates. -/
theorem C3_witness :
    realpathF c3Stat 1 ["x"] = some (.ok ["x"]) ∧
      realpathF c3Stat 1 ["e"] = some (.error .EACCES) :=
  ⟨((C3_realpath_missing c3Stat 0 [] "x" []) (by decide)).1 (by decide),
    ((C3_realpath_missing c3Stat 0 [] "e" []) (by decide)).2 .EACCES (by decide) (by decide)⟩

/-! ## Claim C4 -/

/-- Counterexample to claim C4 as stated: on the two-link symlink cycle
`/a -> /b -> /a`, `realpath` exceeds every recursion depth — there is no
bound of about 40 in the source and no `ELOOP` is ever produced; the
recursion simply never returns. -/
theorem C4_counterexample : realpathDiverges cycleStat ["a"] := by
  have key : ∀ fuel, realpathF cycleStat fuel ["a"] = none ∧
      realpathF cycleStat fuel ["b"] = none := by
    intro fuel
    induction fuel with
    | zero => exact ⟨rfl, rfl⟩
    | succ n ih =>
      constructor
      · simp [realpathF, cycleStat, ih.2]
      · simp [realpathF, cycleStat, ih.1]
  intro fuel
  exact (key fuel).1

/-- Claim C4, amended: `realpath` has no recursion-depth guard — an input
whose resolution encounters a symlink cycle never terminates at any
recursion depth (the result is `none`, never an `ELOOP` error or any other
value; the source contains no `ELOOP` at all). Both members of the cycle
diverge. -/
theorem C4_realpath_unbounded :
    realpathDiverges cycleStat ["a"] ∧ realpathDiverges cycleStat ["b"] := by
  have key : ∀ fuel, realpathF cycleStat fuel ["a"] = none ∧
      realpathF cycleStat fuel ["b"] = none := by
    intro fuel
    induction fuel with
    | zero => exact ⟨rfl, rfl⟩
    | succ n ih =>
      constructor
      · simp [realpathF, cycleStat, ih.2]
      · simp [realpathF, cycleStat, ih.1]
  exact ⟨fun fuel => (key fuel).1, fun fuel => (key fuel).2⟩

/-! ## Claim C5 -/

/-- Claim C5: for `open(p, F, m)` where the target path is absent (the
backend stat fails with `ENOENT`): if `F` is neither writable nor
appendable, or `F` is exactly `r+`, the call fails with `ENOENT`; otherwise
the parent is stat-ed and must have write permission (else `EACCES`, with
access checking enabled) and be a directory (else `ENOTDIR`), after which
the file is created via the backend's `create_file`. -/
theorem C5_open_missing (fs : FSMap (List String)) (c : Cred) (p : List String)
    (flag : OpenFlag) (mode : Nat)
    (habsent : statC fs p = .error .ENOENT) :
    ((isWriteable flag = false ∧ isAppendable flag = false) ∨ flag = .rplus →
      vopen true fs c p flag mode = .error .ENOENT) ∧
    (∀ ps, ¬((isWriteable flag = false ∧ isAppendable flag = false) ∨ flag = .rplus) →
      statC fs p.dropLast = .ok ps →
      (hasAccess ps c W_OK = false → vopen true fs c p flag mode = .error .EACCES) ∧
      (hasAccess ps c W_OK = true → ps.isDirectory = false →
        vopen true fs c p flag mode = .error .ENOTDIR) ∧
      (hasAccess ps c W_OK = true → ps.isDirectory = true →
        vopen true fs c p flag mode = .ok (createC fs p mode c, .created))) := by
  constructor
  · intro hflag
    simp [vopen, habsent, hflag]
  · intro ps hflag hparent
    refine ⟨?_, ?_, ?_⟩
    · intro hacc
      simp [vopen, habsent, hflag, hparent, hacc]
    · intro hacc hdirb
      simp [vopen, habsent, hflag, hparent, hacc, hdirb]
    · intro hacc hdirb
      simp [vopen, habsent, hflag, hparent, hacc, hdirb]

/-- Store for the C5 witness: only a root directory writable by everyone. -/
def c5Store : FSMap (List String) := [([], ⟨S_IFDIR ||| 0o777, 0, 0, ""⟩)]

/-- Witness for C5 at concrete inputs: `r+` on a missing path fails
`ENOENT`; `w` creates the file under the writable root directory. -/
theorem C5_witness :
    vopen true c5Store ⟨1, 1⟩ ["x"] .rplus 0o644 = .error .ENOENT ∧
      vopen true c5Store ⟨1, 1⟩ ["x"] .w 0o644 =
        .ok (createC c5Store ["x"] 0o644 ⟨1, 1⟩, .created) :=
  ⟨(C5_open_missing c5Store ⟨1, 1⟩ ["x"] .rplus 0o644 (by decide)).1 (by decide),
    ((C5_open_missing c5Store ⟨1, 1⟩ ["x"] .w 0o644 (by decide)).2
      ⟨S_IFDIR ||| 0o777, 0, 0, 0⟩ (by decide) (by decide)).2.2 (by decide) (by decide)⟩

/-! ## Claim C6 -/

theorem lookupE_writeC_self {κ : Type} [DecidableEq κ] (fs : FSMap κ) (p : κ) (d : String) :
    ∃ e, lookupE (writeC fs p d) p = some e ∧ e.data = d := by
  unfold writeC
  cases h : lookupE fs p with
  | none => exact ⟨_, lookupE_setE_self _ _ _, rfl⟩
  | some e0 => exact ⟨_, lookupE_setE_self _ _ _, rfl⟩

theorem resolveMountM_setMount (ms : List (SPath × FSMap SPath)) (mp0 : SPath)
    (fs0 : FSMap SPath) (p : SPath) :
    resolveMountM (setMount ms mp0 fs0) p =
      (resolveMountM ms p).map (fun r => (r.1, if r.1 = mp0 then fs0 else r.2.1, r.2.2)) := by
  induction ms with
  | nil => simp [resolveMountM, setMount]
  | cons kv rest ih =>
    obtain ⟨mp, fs⟩ := kv
    show resolveMountM
        ((if mp = mp0 then (mp0, fs0) else (mp, fs)) :: setMount rest mp0 fs0) p = _
    by_cases h : mp = mp0
    · subst h
      simp only [if_pos rfl]
      by_cases hp : mp.isPrefixOf p
      · simp [resolveMountM, hp]
      · simp [resolveMountM, hp, ih]
    · simp only [if_neg h]
      by_cases hp : mp.isPrefixOf p
      · simp [resolveMountM, hp, h]
      · simp [resolveMountM, hp, ih]

/-- Two mounts plus the root, ordered by descending mount-point length:
`/a` holds `x` with contents `v`, `/b` is empty. -/
def c6State : VfsState :=
  { mounts := [(["a"], [(["x"], ⟨0o100644, 0, 0, "v"⟩)]), (["b"], []), ([], [])]
    events := [] }

/-- Counterexample to claim C6 as stated: the cross-mount
`rename('/a/x', '/b/x')` succeeds, removes the old file and copies the
contents, and emits a `rename` event for old — but no `change` event is
emitted for the user-facing path `/b/x`; the change event carries the
backend-local path `/x` instead. -/
theorem C6_counterexample :
    (vfsRename c6State ["a", "x"] ["b", "x"]).map
        (fun st2 => (st2.events.contains (EvKind.change, (["b", "x"] : SPath)),
          st2.events.contains (EvKind.change, (["x"] : SPath)),
          vfsExists st2 ["a", "x"], vfsReadFile st2 ["b", "x"],
          st2.events.contains (EvKind.rename, (["a", "x"] : SPath)))) =
      .ok (false, true, false, .ok "v", true) := by
  decide

/-- Claim C6, amended: a `rename(old, new)` across different mounts copies
the bytes and unlinks old, so afterwards `exists(old)` is false and
`read_file(new)` returns the original contents; a `rename` event is emitted
for `old` (twice: once by `unlink` and once by `rename`), and the `change`
event is emitted for the backend-local resolved path of `new`, not for
`new` itself. When both paths resolve to the same mount, the operation is
delegated to that backend's rename, with `rename` emitted on old and
`change` on new. -/
theorem C6_rename_cross_mount (st : VfsState) (oldP newP : SPath)
    (mpS lpS mpD lpD : SPath) (fsS fsD : FSMap SPath)
    (hs : resolveMountM st.mounts oldP = some (mpS, fsS, lpS))
    (hd : resolveMountM st.mounts newP = some (mpD, fsD, lpD))
    (hne : mpS ≠ mpD)
    (v : String) (hv : vfsReadFile st oldP = .ok v) :
    (∃ st2, vfsRename st oldP newP = .ok st2 ∧
      vfsExists st2 oldP = false ∧
      vfsReadFile st2 newP = .ok v ∧
      st2.events = st.events ++ [(.change, lpD), (.rename, oldP), (.rename, oldP)]) ∧
    (∀ st3 o3 n3 mp l1 l2 fs3,
      resolveMountM st3.mounts o3 = some (mp, fs3, l1) →
      resolveMountM st3.mounts n3 = some (mp, fs3, l2) →
      vfsRename st3 o3 n3 =
        match renameC fs3 l1 l2 with
        | .ok fs2 =>
          .ok { mounts := setMount st3.mounts mp fs2,
                events := st3.events ++ [(.rename, o3), (.change, n3)] }
        | .error e => .error e) := by
  constructor
  · have hv' := hv
    simp only [vfsReadFile, hs] at hv'
    cases hle : lookupE fsS lpS with
    | none => rw [hle] at hv'; exact absurd hv' (by simp)
    | some e0 =>
      rw [hle] at hv'
      have hev : e0.data = v := by simpa using hv'
      have hrun : vfsRename st oldP newP =
          .ok { mounts := setMount (setMount st.mounts mpD (writeC fsD lpD v)) mpS
                  (removeE fsS lpS),
                events := st.events ++ [(.change, lpD), (.rename, oldP), (.rename, oldP)] } := by
        simp only [vfsRename, hs, hd, if_neg hne, hv, vfsWriteFile, vfsUnlink,
          resolveMountM_setMount, Option.map_some', if_neg hne, existsC, hle]
        simp
      refine ⟨_, hrun, ?_, ?_, rfl⟩
      · simp [vfsExists, resolveMountM_setMount, hs, hne, existsC, lookupE_removeE]
      · obtain ⟨e2, he2, he2d⟩ := lookupE_writeC_self fsD lpD v
        simp [vfsReadFile, resolveMountM_setMount, hd, Ne.symm hne, he2, he2d]
  · intro st3 o3 n3 mp l1 l2 fs3 h1 h2
    simp [vfsRename, h1, h2]

/-- Witness for C6 (amended) at the concrete two-mount state. -/
theorem C6_witness :
    ∃ st2, vfsRename c6State ["a", "x"] ["b", "x"] = .ok st2 ∧
      vfsExists st2 ["a", "x"] = false ∧
      vfsReadFile st2 ["b", "x"] = .ok "v" ∧
      st2.events = c6State.events ++
        [(.change, ["x"]), (.rename, ["a", "x"]), (.rename, ["a", "x"])] :=
  (C6_rename_cross_mount c6State ["a", "x"] ["b", "x"] ["a"] ["x"] ["b"] ["x"]
    [(["x"], ⟨0o100644, 0, 0, "v"⟩)] [] (by decide) (by decide) (by decide)
    "v" (by decide)).1

/-! ## Claim C9 -/

theorem doneBefore_unlocked (tr : List MEvent) (j t : Nat) (h : doneBefore tr j t = true) :
    ∀ i, i ≤ j → (tr.take t).contains (MEvent.unlock i) = true := by
  induction j with
  | zero =>
    intro i hi
    have hi0 : i = 0 := Nat.le_zero.mp hi
    subst hi0
    rw [doneBefore] at h
    exact h
  | succ n ih =>
    intro i hi
    rw [doneBefore, Bool.and_eq_true] at h
    by_cases hin : i ≤ n
    · exact ih h.1 i hin
    · have hieq : i = n + 1 := by omega
      rw [hieq]
      exact h.2

theorem contains_take_get? (tr : List MEvent) (t : Nat) (e : MEvent)
    (h : (tr.take t).contains e = true) : ∃ u, u < t ∧ tr.get? u = some e := by
  have hm : e ∈ tr.take t := by simpa using h
  obtain ⟨u, hu⟩ := List.mem_iff_get?.mp hm
  obtain ⟨hlen, _⟩ := List.get?_eq_some.mp hu
  have hut : u < t := by
    refine lt_of_lt_of_le hlen ?_
    rw [List.length_take]
    exact min_le_left _ _
  refine ⟨u, hut, ?_⟩
  rw [← List.get?_take hut]
  exact hu

theorem nodup_get?_inj (tr : List MEvent) (h : tr.Nodup) (i j : Nat) (e : MEvent)
    (hi : tr.get? i = some e) (hj : tr.get? j = some e) : i = j := by
  obtain ⟨hlen, _⟩ := List.get?_eq_some.mp hi
  exact List.get?_inj hlen h (by rw [hi, hj])

/-- Claim C9: on one mutexed wrapper, locks acquired in invocation order
are FIFO and serialize the backend. For locks `a < b` (that is, `lock(A)`
was invoked strictly before `lock(B)`): `A` is unlocked only after it was
acquired, and `B` is acquired only after `A` was unlocked — so `A` is
acquired before `B`, the in-flight intervals are disjoint, and at most one
call is in flight at the underlying backend at any time. -/
theorem C9_mutex_fifo (tr : List MEvent) (hv : ValidTrace tr)
    (a b ta tb ua : Nat) (hab : a < b)
    (ha : tr.get? ta = some (.acquire a))
    (hb : tr.get? tb = some (.acquire b))
    (hu : tr.get? ua = some (.unlock a)) :
    ta < ua ∧ ua < tb ∧ ta < tb := by
  obtain ⟨hnd, hstep⟩ := hv
  have hua_lt : ua < tr.length := (List.get?_eq_some.mp hu).1
  have h1 := hstep ua hua_lt
  rw [stepOK, hu] at h1
  obtain ⟨s, hs1, hs2⟩ := List.any_eq_true.mp h1
  have hsu : s < ua := by simpa using hs1
  have hsa : tr.get? s = some (MEvent.acquire a) := by simpa using hs2
  have hsta : s = ta := nodup_get?_inj tr hnd s ta _ hsa ha
  have htaua : ta < ua := hsta ▸ hsu
  have htb_lt : tb < tr.length := (List.get?_eq_some.mp hb).1
  have h2 := hstep tb htb_lt
  rw [stepOK, hb] at h2
  have hbz : (b == 0) = false := by
    have : b ≠ 0 := by omega
    simpa using this
  have h2b : (b == 0 || doneBefore tr (b - 1) tb) = true := h2
  rw [hbz, Bool.false_or] at h2b
  have hcont := doneBefore_unlocked tr (b - 1) tb h2b a (Nat.le_pred_of_lt hab)
  obtain ⟨u, hu1, hu2⟩ := contains_take_get? tr tb _ hcont
  have huua : u = ua := nodup_get?_inj tr hnd u ua _ hu2 hu
  have huatb : ua < tb := huua ▸ hu1
  exact ⟨htaua, huatb, lt_trans htaua huatb⟩

/-- A concrete serialized trace of two locks. -/
def fifoTrace : List MEvent :=
  [.acquire 0, .unlock 0, .acquire 1, .unlock 1]

/-- Witness for C9 at the concrete two-lock trace. -/
theorem C9_witness : (0 < 1 ∧ 1 < 2) ∧ (0 < 1 ∧ 1 < 2 ∧ 0 < 2) :=
  ⟨⟨Nat.zero_lt_one, Nat.one_lt_two⟩,
    C9_mutex_fifo fifoTrace ⟨by decide, by decide⟩ 0 1 0 2 1 (by decide)
      (by decide) (by decide) (by decide)⟩

/-! ## Claim C10 -/

/-- Claim C10: handle-level `stat` (`fstat`) performs a read-access check
when access checking is enabled: if the caller's credentials do not satisfy
the read bit of the file's mode, it fails with `EACCES` — even though the
handle was already open (for example write-only); otherwise it returns the
underlying file's stats. -/
theorem C10_fstat_checks_read (chk : Bool) (c : Cred) (s : Stats) (hchk : chk = true) :
    (hasAccess s c R_OK = false → fileHandleStat chk c s = .error .EACCES) ∧
    (hasAccess s c R_OK = true → fileHandleStat chk c s = .ok s) := by
  subst hchk
  constructor
  · intro hacc
    simp [fileHandleStat, hacc]
  · intro hacc
    simp [fileHandleStat, hacc]

/-- Witness for C10: a regular file opened write-only (mode `0o200`, owner
uid/gid 42) denies `fstat` to its owner when access checking is on. -/
theorem C10_witness :
    hasAccess ⟨S_IFREG ||| 0o200, 42, 42, 0⟩ ⟨42, 42⟩ R_OK = false ∧
      fileHandleStat true ⟨42, 42⟩ ⟨S_IFREG ||| 0o200, 42, 42, 0⟩ = .error .EACCES :=
  ⟨by decide,
    (C10_fstat_checks_read true ⟨42, 42⟩ ⟨S_IFREG ||| 0o200, 42, 42, 0⟩ rfl).1 (by decide)⟩
